import Mathlib

/-!
Verification of the R2 upload logic of this repository
(`src/r2_uploader.py` and `r2_upload_example.py`).

Paths and other Python strings are modelled as lists of characters
(`Str`), Python dictionaries holding upload results as a structure of
`Option` fields (a field is `none` exactly when the corresponding key is
absent from the dictionary), and the effectful boundary (the S3 call,
`os.remove`) as explicit outcome parameters, so every function of the
source becomes a total computable Lean function.
-/

namespace R2

/-- A Python string, modelled as its list of characters. -/
abbrev Str := List Char

/-- The forward slash character. -/
def fslash : Char := '/'

/-- The backslash character (code point 92). -/
def bslash : Char := Char.ofNat 92

/-- The root marker used by `upload_video_to_r2`: the literal `downloads`. -/
def marker : Str := "downloads".toList

/-- `dropPre sep s` returns `some rest` when `s = sep ++ rest`, else `none`.
Helper for locating occurrences of a separator, as Python `str.split` does. -/
def dropPre : Str → Str → Option Str
  | [], s => some s
  | _ :: _, [] => none
  | a :: as, b :: bs => if a = b then dropPre as bs else none

/-- First occurrence of `sep` in `s`: `some (before, after)` splits `s` as
`before ++ sep ++ after` at the leftmost occurrence, `none` when `sep` does
not occur.  This is the elementary step of Python `str.split(sep)` (and
`sep in s` is `(splitFirst sep s).isSome` for a nonempty `sep`). -/
def splitFirst (sep : Str) : Str → Option (Str × Str)
  | [] => none
  | c :: cs =>
    match dropPre sep (c :: cs) with
    | some rest => some ([], rest)
    | none =>
      match splitFirst sep cs with
      | none => none
      | some p => some (c :: p.1, p.2)

/-- `part1 sep s` is element 1 of Python `s.split(sep)` when it exists:
the chunk between the first and the second occurrence of `sep` (or
everything after the first occurrence when it is the only one).  `none`
when `sep` does not occur, i.e. when `len(s.split(sep)) == 1`. -/
def part1 (sep s : Str) : Option Str :=
  match splitFirst sep s with
  | none => none
  | some p =>
    match splitFirst sep p.2 with
    | none => some p.2
    | some q => some q.1

/-- Python `s.lstrip('/\x5c')`: drop leading slashes and backslashes. -/
def lstripSeps (s : Str) : Str := s.dropWhile (fun c => c == fslash || c == bslash)

/-- The character map of Python `s.replace('\x5c', '/')`: a backslash
becomes a forward slash, anything else is unchanged. -/
def replCh (c : Char) : Char := if c = bslash then fslash else c

/-- Python `s.replace('\x5c', '/')` for the single-character pattern:
map every backslash to a forward slash. -/
def replBackslash (s : Str) : Str := s.map replCh

/-- Object-key derivation of `upload_video_to_r2`
(`src/r2_uploader.py` lines 361-369):

    relative_path = file_path
    if 'downloads' in file_path:
        parts = file_path.split('downloads')
        if len(parts) > 1:
            relative_path = parts[1].lstrip('/\x5c')
    object_name = relative_path.replace('\x5c', '/')

`'downloads' in file_path` holds iff `part1 marker file_path` is `some`,
and then `parts[1]` is exactly that chunk (the `len(parts) > 1` test is
redundant: it holds whenever the marker occurs). -/
def deriveObjectKey (file_path : Str) : Str :=
  replBackslash (match part1 marker file_path with
    | some r => lstripSeps r
    | none => file_path)

/-- `containsSub sep s` is Python `sep in s` for nonempty `sep`. -/
def containsSub (sep s : Str) : Bool := (splitFirst sep s).isSome

/-- `dropPre sep s = some r` means `s` is exactly `sep` followed by `r`. -/
theorem dropPre_some (sep : Str) : ∀ s r, dropPre sep s = some r → s = sep ++ r := by
  induction sep with
  | nil => intro s r h; simpa [dropPre] using h
  | cons a as ih =>
    intro s r h
    cases s with
    | nil => simp [dropPre] at h
    | cons b bs =>
      by_cases hab : a = b
      · simp [dropPre, hab] at h
        subst hab
        simpa using ih bs r h
      · simp [dropPre, hab] at h

/-- `dropPre` succeeds on a string that starts with the separator. -/
theorem dropPre_self (sep : Str) : ∀ x, dropPre sep (sep ++ x) = some x := by
  induction sep with
  | nil => intro x; simp [dropPre]
  | cons a as ih => intro x; simpa [dropPre] using ih x

/-- A successful `splitFirst` decomposes the string around the separator. -/
theorem splitFirst_decomp (sep : Str) :
    ∀ s p, splitFirst sep s = some p → s = p.1 ++ sep ++ p.2 := by
  intro s
  induction s with
  | nil => intro p h; simp [splitFirst] at h
  | cons c cs ih =>
    intro p h
    rw [splitFirst] at h
    cases hd : dropPre sep (c :: cs) with
    | some rest =>
      rw [hd] at h
      cases h
      simpa using dropPre_some sep (c :: cs) rest hd
    | none =>
      rw [hd] at h
      cases hs : splitFirst sep cs with
      | none => rw [hs] at h; cases h
      | some q =>
        rw [hs] at h
        cases h
        show c :: cs = (c :: q.1) ++ sep ++ q.2
        rw [List.cons_append, List.cons_append, ih q hs]

/-- The chunk before the first occurrence contains no further occurrence
of the separator. -/
theorem splitFirst_before_none (sep : Str) :
    ∀ s p, splitFirst sep s = some p → splitFirst sep p.1 = none := by
  intro s
  induction s with
  | nil => intro p h; simp [splitFirst] at h
  | cons c cs ih =>
    intro p h
    rw [splitFirst] at h
    cases hd : dropPre sep (c :: cs) with
    | some rest =>
      rw [hd] at h
      cases h
      rfl
    | none =>
      rw [hd] at h
      cases hs : splitFirst sep cs with
      | none => rw [hs] at h; cases h
      | some q =>
        rw [hs] at h
        cases h
        have hq1 := ih q hs
        have hdec := splitFirst_decomp sep cs q hs
        show splitFirst sep (c :: q.1) = none
        rw [splitFirst]
        cases hd2 : dropPre sep (c :: q.1) with
        | some r =>
          exfalso
          have hr := dropPre_some sep (c :: q.1) r hd2
          have hceq : c :: cs = sep ++ (r ++ (sep ++ q.2)) := by
            have h1 : c :: cs = (c :: q.1) ++ (sep ++ q.2) := by
              rw [hdec]; simp
            rw [h1, hr]
            simp
          rw [hceq, dropPre_self] at hd
          simp at hd
        | none => rw [hq1]

/-- The chunk `part1` (Python `split(sep)[1]`) contains no occurrence of
the separator. -/
theorem part1_none (sep s : Str) :
    ∀ r, part1 sep s = some r → splitFirst sep r = none := by
  intro r h
  rw [part1] at h
  cases h1 : splitFirst sep s with
  | none => simp [h1] at h
  | some p =>
    cases h2 : splitFirst sep p.2 with
    | none =>
      simp [h1, h2] at h
      rw [← h]
      exact h2
    | some q =>
      simp [h1, h2] at h
      rw [← h]
      exact splitFirst_before_none sep p.2 q h2

/-- `part1` fails exactly when the separator does not occur. -/
theorem part1_eq_none_iff (sep s : Str) : part1 sep s = none ↔ splitFirst sep s = none := by
  cases h1 : splitFirst sep s with
  | none => simp [part1, h1]
  | some p =>
    cases h2 : splitFirst sep p.2 with
    | none => simp [part1, h1, h2]
    | some q => simp [part1, h1, h2]

/-- Dropping a leading run of characters cannot create an occurrence of
the separator. -/
theorem splitFirst_dropWhile_none (sep : Str) (q : Char → Bool) :
    ∀ s, splitFirst sep s = none → splitFirst sep (s.dropWhile q) = none := by
  intro s
  induction s with
  | nil => intro h; simpa using h
  | cons c cs ih =>
    intro h
    rw [splitFirst] at h
    cases hd : dropPre sep (c :: cs) with
    | some rest => rw [hd] at h; cases h
    | none =>
      rw [hd] at h
      cases hs : splitFirst sep cs with
      | some p => rw [hs] at h; cases h
      | none =>
        cases hq : q c with
        | true => simpa [List.dropWhile, hq] using ih hs
        | false =>
          simp only [List.dropWhile, hq]
          rw [splitFirst, hd, hs]

/-- When no character of the separator is a forward slash, mapping
backslashes to forward slashes cannot create a leading occurrence of the
separator. -/
theorem dropPre_map_none (sep : Str) (hno : ∀ d ∈ sep, d ≠ fslash) :
    ∀ s, dropPre sep s = none → dropPre sep (s.map replCh) = none := by
  induction sep with
  | nil => intro s h; simp [dropPre] at h
  | cons a as ih =>
    intro s h
    cases s with
    | nil => simp [dropPre]
    | cons b bs =>
      have ha : a ≠ fslash := hno a (by simp)
      by_cases hb : b = bslash
      · have hfb : replCh b = fslash := by simp [replCh, hb]
        have hne : ¬ a = replCh b := by rw [hfb]; exact ha
        simp only [List.map_cons, dropPre, if_neg hne]
      · have hfb : replCh b = b := by simp [replCh, hb]
        by_cases hab : a = b
        · have h2 : dropPre as bs = none := by simpa [dropPre, hab] using h
          have h3 := ih (fun d hd => hno d (by simp [hd])) bs h2
          have hab2 : a = replCh b := by rw [hfb]; exact hab
          simp only [List.map_cons, dropPre, if_pos hab2]
          exact h3
        · have hne : ¬ a = replCh b := by rw [hfb]; exact hab
          simp only [List.map_cons, dropPre, if_neg hne]

/-- When no character of the separator is a forward slash,
`replBackslash` cannot create an occurrence of the separator. -/
theorem splitFirst_map_none (sep : Str) (hno : ∀ d ∈ sep, d ≠ fslash) :
    ∀ s, splitFirst sep s = none → splitFirst sep (replBackslash s) = none := by
  intro s
  induction s with
  | nil => intro h; simpa [replBackslash] using h
  | cons c cs ih =>
    intro h
    rw [splitFirst] at h
    cases hd : dropPre sep (c :: cs) with
    | some rest => rw [hd] at h; cases h
    | none =>
      rw [hd] at h
      cases hs : splitFirst sep cs with
      | some p => rw [hs] at h; cases h
      | none =>
        have hd2 : dropPre sep (replCh c :: List.map replCh cs) = none := by
          have h0 := dropPre_map_none sep hno (c :: cs) hd
          simpa only [List.map_cons] using h0
        have ih2 : splitFirst sep (List.map replCh cs) = none := ih hs
        show splitFirst sep (replCh c :: List.map replCh cs) = none
        rw [splitFirst, hd2, ih2]

/-- No character of the root marker `downloads` is a forward slash. -/
theorem marker_no_fslash : ∀ d ∈ marker, d ≠ fslash := by decide

/-- The output of `replBackslash` never contains a backslash. -/
theorem replBackslash_no_bslash (s : Str) : bslash ∉ replBackslash s := by
  intro hmem
  rw [replBackslash, List.mem_map] at hmem
  obtain ⟨a, _, ha⟩ := hmem
  by_cases h : a = bslash
  · rw [replCh, if_pos h] at ha
    exact absurd ha (by decide)
  · rw [replCh, if_neg h] at ha
    exact h ha

/-- The head of a `dropWhile` result, when present, fails the predicate. -/
theorem dropWhile_head_cases (q : Char → Bool) :
    ∀ l : Str, l.dropWhile q = [] ∨ ∃ c t, l.dropWhile q = c :: t ∧ q c = false := by
  intro l
  induction l with
  | nil => left; rfl
  | cons c cs ih =>
    cases hq : q c with
    | true => simpa [List.dropWhile, hq] using ih
    | false => right; exact ⟨c, cs, by simp [List.dropWhile, hq], hq⟩

/-- Claim C2 amended: the derived object key never contains a backslash
(it is forward-slash separated) and never contains the `downloads`
marker; moreover, when the path does contain the marker, the key has no
leading separator.  (When the marker is absent the key is the whole
normalized path and may begin with `/`, i.e. it is not always relative —
see `C2_counterexample`.) -/
theorem C2_amended (s : Str) :
    bslash ∉ deriveObjectKey s ∧
    containsSub marker (deriveObjectKey s) = false ∧
    (containsSub marker s = true →
      (deriveObjectKey s).head? ≠ some fslash ∧ (deriveObjectKey s).head? ≠ some bslash) := by
  refine ⟨replBackslash_no_bslash _, ?_, ?_⟩
  · have hn : splitFirst marker (deriveObjectKey s) = none := by
      cases hp : part1 marker s with
      | some r =>
        have h1 : splitFirst marker r = none := part1_none marker s r hp
        have h2 : splitFirst marker (lstripSeps r) = none :=
          splitFirst_dropWhile_none marker _ r h1
        have hk : deriveObjectKey s = replBackslash (lstripSeps r) := by
          rw [deriveObjectKey, hp]
        rw [hk]
        exact splitFirst_map_none marker marker_no_fslash _ h2
      | none =>
        have h1 : splitFirst marker s = none := (part1_eq_none_iff marker s).mp hp
        have hk : deriveObjectKey s = replBackslash s := by
          rw [deriveObjectKey, hp]
        rw [hk]
        exact splitFirst_map_none marker marker_no_fslash _ h1
    rw [containsSub, hn]
    rfl
  · intro hc
    rw [containsSub, Option.isSome_iff_exists] at hc
    obtain ⟨p, hp⟩ := hc
    cases hp1 : part1 marker s with
    | none =>
      exfalso
      have h0 := (part1_eq_none_iff marker s).mp hp1
      rw [h0] at hp
      cases hp
    | some r =>
      have hk : deriveObjectKey s = replBackslash (lstripSeps r) := by
        rw [deriveObjectKey, hp1]
      rw [hk]
      rcases dropWhile_head_cases (fun c => c == fslash || c == bslash) r with he | ⟨c, t, hct, hqc⟩
      · have hl : lstripSeps r = [] := he
        rw [hl]
        constructor
        · intro h
          rw [replBackslash] at h
          simp at h
        · intro h
          rw [replBackslash] at h
          simp at h
      · have hl : lstripSeps r = c :: t := hct
        rw [hl]
        have hcf : c ≠ fslash := by
          intro h
          rw [h] at hqc
          simp at hqc
        have hcb : c ≠ bslash := by
          intro h
          rw [h] at hqc
          simp at hqc
        have hrc : replCh c = c := by rw [replCh, if_neg hcb]
        have hh : (replBackslash (c :: t)).head? = some c := by
          rw [replBackslash, List.map_cons, List.head?_cons, hrc]
        constructor
        · intro h
          rw [hh] at h
          exact hcf (Option.some.inj h)
        · intro h
          rw [hh] at h
          exact hcb (Option.some.inj h)

/-- Claim C2 counterexample: for the marker-free absolute path
`/var/x.mp4` the derived object key is the unchanged path `/var/x.mp4`,
which begins with a path separator — so the object key is not always a
relative path, refuting the claim as stated. -/
theorem C2_counterexample :
    deriveObjectKey ("/var/x.mp4".toList) = "/var/x.mp4".toList ∧
    (deriveObjectKey ("/var/x.mp4".toList)).head? = some fslash := by
  constructor
  · rfl
  · rfl

/-- Claim C2 amended, witness at the concrete path
`downloads/douyin/a/v.mp4` (which contains the marker). -/
theorem C2_amended_witness :
    containsSub marker ("downloads/douyin/a/v.mp4".toList) = true ∧
    bslash ∉ deriveObjectKey ("downloads/douyin/a/v.mp4".toList) ∧
    (deriveObjectKey ("downloads/douyin/a/v.mp4".toList)).head? ≠ some fslash := by
  have h := C2_amended ("downloads/douyin/a/v.mp4".toList)
  exact ⟨by decide, h.1, (h.2.2 (by decide)).1⟩

/-- Claim C1, evaluation at the failing input: on the path
`downloads/douyin/downloads/video.mp4` (the root marker segment occurs
twice) the code derives the object key `douyin/` — `split('downloads')[1]`
keeps only the text between the first two occurrences of the marker — and
not `douyin/downloads/video.mp4`, the suffix after the first marker with
leading separators stripped, which the claim (and the code's own comment,
"Construct object name preserving directory structure") prescribes.  The
file name is lost from the key. -/
theorem C1_code_eval :
    deriveObjectKey ("downloads/douyin/downloads/video.mp4".toList) = "douyin/".toList ∧
    deriveObjectKey ("downloads/douyin/downloads/video.mp4".toList) ≠
      "douyin/downloads/video.mp4".toList := by
  constructor
  · rfl
  · decide

/-- Python `s.rstrip('/')`: drop trailing forward slashes. -/
def rstripSlash (s : Str) : Str := (s.reverse.dropWhile (fun c => c == fslash)).reverse

/-- The dictionary returned by `R2Uploader.upload_file` /
`upload_video_to_r2`.  A field is `none` exactly when the corresponding
key is absent from the Python dictionary. -/
structure UploadResult where
  success : Bool := false
  objectName : Option Str := none
  size : Option Nat := none
  bucket : Option Str := none
  url : Option Str := none
  error : Option Str := none
  localFileDeleted : Option Bool := none
deriving DecidableEq, Repr

/-- Outcome of the S3 `upload_file` call of the boto3 client, the
effectful boundary of `R2Uploader.upload_file`: it either returns, or
raises a `ClientError` carrying an optional provider error code and
message (`e.response['Error']['Code'/'Message']`) plus the fallback
string `str(e)`, or raises any other exception with message `msg`. -/
inductive S3Outcome where
  | ok : S3Outcome
  | clientError (code : Option Str) (msg : Option Str) (estr : Str) : S3Outcome
  | exc (msg : Str) : S3Outcome
deriving DecidableEq, Repr

/-- The result `{"success": False, "error": "File not found"}`. -/
def fileNotFoundResult : UploadResult :=
  { success := false, error := some ("File not found".toList) }

/-- `R2Uploader.upload_file` (`src/r2_uploader.py` lines 79-166).
`file` is `some size` when the local file exists with that size, else
`none` (`os.path.exists` / `os.path.getsize`); `file_basename` is
`os.path.basename(file_path)`; `outcome` is the result of the boto3
call.  The `metadata` and `content_type` arguments of the source are
only forwarded to that call (as `ExtraArgs`) and never influence the
returned dictionary, so they are absorbed by `outcome`. -/
def upload_file (public_url : Option Str) (bucket_name : Str) (file : Option Nat)
    (file_basename : Str) (object_name : Option Str) (outcome : S3Outcome) : UploadResult :=
  match file with
  | none => fileNotFoundResult
  | some file_size =>
    let objName := object_name.getD file_basename
    match outcome with
    | S3Outcome.ok =>
      let url : Option Str :=
        match public_url with
        | some pu => if pu = [] then none else some (rstripSlash pu ++ fslash :: objName)
        | none => none
      { success := true, objectName := some objName, size := some file_size,
        bucket := some bucket_name, url := url }
    | S3Outcome.clientError code msg estr =>
      { success := false,
        error := some (code.getD ("Unknown".toList) ++ ": ".toList ++ msg.getD estr),
        objectName := some objName }
    | S3Outcome.exc m =>
      { success := false, error := some m, objectName := some objName }

/-- Claim C3: `upload_file` never raises — it is a total function into
result dictionaries.  When the local file does not exist it returns the
failure result `{"success": False, "error": "File not found"}`; on a
`ClientError` it returns a failure result whose error field is
`f"{error_code}: {error_msg}"` built from the provider's error code
(default `Unknown`) and message (default `str(e)`); on any other
exception it returns a failure result carrying the exception's message. -/
theorem C3_never_raises (pu : Option Str) (bn bname : Str) (oname : Option Str) :
    (∀ outc, upload_file pu bn none bname oname outc = fileNotFoundResult) ∧
    (∀ sz code msg estr,
      (upload_file pu bn (some sz) bname oname (S3Outcome.clientError code msg estr)).success = false ∧
      (upload_file pu bn (some sz) bname oname (S3Outcome.clientError code msg estr)).error =
        some (code.getD ("Unknown".toList) ++ ": ".toList ++ msg.getD estr)) ∧
    (∀ sz m,
      (upload_file pu bn (some sz) bname oname (S3Outcome.exc m)).success = false ∧
      (upload_file pu bn (some sz) bname oname (S3Outcome.exc m)).error = some m) :=
  ⟨fun _ => rfl, fun _ _ _ _ => ⟨rfl, rfl⟩, fun _ _ => ⟨rfl, rfl⟩⟩

/-- Claim C9: when the local file does not exist the result is exactly
`{"success": False, "error": "File not found"}` — in particular it has
no object-name, size, bucket or url key — while both other failure paths
(`ClientError` and generic exception) do include the object name. -/
theorem C9_not_found_shape (pu : Option Str) (bn bname : Str) (oname : Option Str) :
    (∀ outc, upload_file pu bn none bname oname outc =
      { success := false, objectName := none, size := none, bucket := none, url := none,
        error := some ("File not found".toList), localFileDeleted := none }) ∧
    (∀ sz code msg estr,
      (upload_file pu bn (some sz) bname oname (S3Outcome.clientError code msg estr)).objectName =
        some (oname.getD bname)) ∧
    (∀ sz m,
      (upload_file pu bn (some sz) bname oname (S3Outcome.exc m)).objectName =
        some (oname.getD bname)) :=
  ⟨fun _ => rfl, fun _ _ _ _ => rfl, fun _ _ => rfl⟩

/-- Claim C8: on a successful upload with a nonempty configured
`public_url`, the result's url is the public URL prefix with trailing
slashes stripped, then exactly one slash, then the object key
(`f"{self.public_url.rstrip('/')}/{object_name}"`). -/
theorem C8_public_url (pu : Str) (bn bname : Str) (oname : Option Str) (sz : Nat)
    (h : pu ≠ []) :
    (upload_file (some pu) bn (some sz) bname oname S3Outcome.ok).url =
      some (rstripSlash pu ++ fslash :: oname.getD bname) ∧
    (upload_file (some pu) bn (some sz) bname oname S3Outcome.ok).success = true := by
  constructor
  · show (if pu = [] then none else some (rstripSlash pu ++ fslash :: oname.getD bname)) = _
    rw [if_neg h]
  · rfl

/-- Claim C8, witness: prefix `https://cdn.example.com/` and object key
`x/y.mp4` yield the url `https://cdn.example.com/x/y.mp4` — no duplicate
slash although the configured prefix ends with a slash. -/
theorem C8_public_url_witness :
    ("https://cdn.example.com/".toList ≠ ([] : Str)) ∧
    (upload_file (some ("https://cdn.example.com/".toList)) ("bucket".toList) (some 7)
      ("y.mp4".toList) (some ("x/y.mp4".toList)) S3Outcome.ok).url =
      some ("https://cdn.example.com/x/y.mp4".toList) := by
  have h := C8_public_url ("https://cdn.example.com/".toList) ("bucket".toList)
    ("y.mp4".toList) (some ("x/y.mp4".toList)) 7 (by decide)
  exact ⟨by decide, h.1.trans (by decide)⟩

/-- Python `os.path.basename` for POSIX paths: everything after the last
forward slash. -/
def basenameOf (s : Str) : Str :=
  s.foldl (fun acc c => if c = fslash then [] else acc ++ [c]) []

/-- Result of `upload_video_to_r2` together with its local frame
effects: whether `os.remove(file_path)` was called and whether the local
file was actually removed. -/
structure VideoUploadOut where
  result : UploadResult
  deleteAttempted : Bool
  localRemoved : Bool
deriving DecidableEq, Repr

/-- `upload_video_to_r2` (`src/r2_uploader.py` lines 337-395).  `file`
is `some size` when `file_path` exists; `upload_timestamp` is the
stringified event-loop time; `outcome` is the boto3 call's outcome;
`removeOk` tells whether `os.remove` would succeed.  The async wrapper
`upload_file_async` merely runs `upload_file` on an executor and returns
its result unchanged, so it is modelled as the direct call. -/
def upload_video_to_r2 (pu : Option Str) (bucket_name : Str) (file : Option Nat)
    (file_path : Str) (platform anchor_name upload_timestamp : Str)
    (outcome : S3Outcome) (delete_after_upload : Bool) (removeOk : Bool) : VideoUploadOut :=
  match file with
  | none => { result := fileNotFoundResult, deleteAttempted := false, localRemoved := false }
  | some sz =>
    let object_name := deriveObjectKey file_path
    let _metadata : List (Str × Str) :=
      [("platform".toList, platform), ("anchor".toList, anchor_name),
        ("upload_timestamp".toList, upload_timestamp)]
    let result := upload_file pu bucket_name (some sz) (basenameOf file_path)
      (some object_name) outcome
    if result.success && delete_after_upload then
      (if removeOk then
        { result := { result with localFileDeleted := some true },
          deleteAttempted := true, localRemoved := true }
      else
        { result := { result with localFileDeleted := some false },
          deleteAttempted := true, localRemoved := false })
    else
      { result := result, deleteAttempted := false, localRemoved := false }

/-- Claim C5: with `delete_after_upload = True`, a successful upload
triggers the deletion of the local file and records
`local_file_deleted = True` when the deletion succeeds and `False` when
it fails, without overturning the upload's success; a failed upload
never attempts the deletion and leaves `local_file_deleted` absent. -/
theorem C5_delete_after (pu : Option Str) (bn : Str) (file : Option Nat) (fp : Str)
    (platform anchor ts : Str) (outc : S3Outcome) (removeOk : Bool) :
    ((upload_video_to_r2 pu bn file fp platform anchor ts outc true removeOk).result.success = true →
      (upload_video_to_r2 pu bn file fp platform anchor ts outc true removeOk).deleteAttempted = true ∧
      (upload_video_to_r2 pu bn file fp platform anchor ts outc true removeOk).localRemoved = removeOk ∧
      (upload_video_to_r2 pu bn file fp platform anchor ts outc true removeOk).result.localFileDeleted = some removeOk) ∧
    ((upload_video_to_r2 pu bn file fp platform anchor ts outc true removeOk).result.success = false →
      (upload_video_to_r2 pu bn file fp platform anchor ts outc true removeOk).deleteAttempted = false ∧
      (upload_video_to_r2 pu bn file fp platform anchor ts outc true removeOk).localRemoved = false ∧
      (upload_video_to_r2 pu bn file fp platform anchor ts outc true removeOk).result.localFileDeleted = none) := by
  cases file with
  | none =>
    cases outc <;> cases removeOk <;>
      simp [upload_video_to_r2, upload_file, fileNotFoundResult]
  | some sz =>
    cases outc <;> cases removeOk <;>
      simp [upload_video_to_r2, upload_file, fileNotFoundResult]

/-- Claim C5, witness: a successful upload of
`downloads/douyin/a/v.mp4` with `delete_after_upload = True` and a
succeeding `os.remove` deletes the local file and records
`local_file_deleted = True`. -/
theorem C5_delete_after_witness :
    (upload_video_to_r2 none ("b".toList) (some 5) ("downloads/douyin/a/v.mp4".toList)
      ("douyin".toList) ("a".toList) ("1".toList) S3Outcome.ok true true).result.success = true ∧
    (upload_video_to_r2 none ("b".toList) (some 5) ("downloads/douyin/a/v.mp4".toList)
      ("douyin".toList) ("a".toList) ("1".toList) S3Outcome.ok true true).deleteAttempted = true ∧
    (upload_video_to_r2 none ("b".toList) (some 5) ("downloads/douyin/a/v.mp4".toList)
      ("douyin".toList) ("a".toList) ("1".toList) S3Outcome.ok true true).localRemoved = true ∧
    (upload_video_to_r2 none ("b".toList) (some 5) ("downloads/douyin/a/v.mp4".toList)
      ("douyin".toList) ("a".toList) ("1".toList) S3Outcome.ok true true).result.localFileDeleted = some true := by
  have h := (C5_delete_after none ("b".toList) (some 5) ("downloads/douyin/a/v.mp4".toList)
    ("douyin".toList) ("a".toList) ("1".toList) S3Outcome.ok true).1 (by decide)
  exact ⟨by decide, h.1, h.2.1, h.2.2⟩

/-- Claim C10: with `delete_after_upload = False` the local file is
never removed — `os.remove` is not even attempted — and the result has
no `local_file_deleted` key, whatever the upload outcome. -/
theorem C10_no_delete (pu : Option Str) (bn : Str) (file : Option Nat) (fp : Str)
    (platform anchor ts : Str) (outc : S3Outcome) (removeOk : Bool) :
    (upload_video_to_r2 pu bn file fp platform anchor ts outc false removeOk).deleteAttempted = false ∧
    (upload_video_to_r2 pu bn file fp platform anchor ts outc false removeOk).localRemoved = false ∧
    (upload_video_to_r2 pu bn file fp platform anchor ts outc false removeOk).result.localFileDeleted = none := by
  cases file <;> cases outc <;>
    simp [upload_video_to_r2, upload_file, fileNotFoundResult]

/-- Python `str.lower` per character, for the ASCII range in which all
extensions and table keys of this program live. -/
def lowerCh (c : Char) : Char := c.toLower

/-- The dot character. -/
def dot : Char := '.'

/-- The comma character. -/
def comma : Char := ','

/-- Python `s.split(sep)` for a single-character separator. -/
def splitOnChar (sep : Char) : Str → List Str
  | [] => [[]]
  | c :: cs =>
    match splitOnChar sep cs with
    | [] => [[]]
    | h :: t => if c = sep then [] :: h :: t else (c :: h) :: t

/-- `pathlib.Path(s).name` for POSIX paths: the last path component,
after pathlib's normalization that drops empty and `.` components. -/
def nameOf (s : Str) : Str :=
  (((splitOnChar fslash s).filter
    (fun seg => !(seg == ([] : Str)) && !(seg == [dot]))).getLast?).getD []

/-- The tail of a string starting at its last dot, `none` when it has no
dot.  Helper for `pathlib`'s suffix computation. -/
def fromLastDot : Str → Option Str
  | [] => none
  | c :: cs =>
    match fromLastDot cs with
    | some t => some t
    | none => if c = dot then some (c :: cs) else none

/-- `pathlib.Path(s).suffix`: the extension of the final component,
taken from its last dot, empty when that dot is the component's first or
last character (CPython: `i = name.rfind('.')`, returned only when
`0 < i < len(name) - 1`). -/
def suffixOf (s : Str) : Str :=
  let name := nameOf s
  match fromLastDot name with
  | some t => if t.length < name.length ∧ 1 < t.length then t else []
  | none => []

/-- The extension→MIME lookup table of `R2Uploader._get_content_type`
(`src/r2_uploader.py` lines 271-282). -/
def content_types : List (Str × Str) :=
  [(".mp4".toList, "video/mp4".toList),
    (".mkv".toList, "video/x-matroska".toList),
    (".flv".toList, "video/x-flv".toList),
    (".ts".toList, "video/mp2t".toList),
    (".m3u8".toList, "application/vnd.apple.mpegurl".toList),
    (".mp3".toList, "audio/mpeg".toList),
    (".m4a".toList, "audio/mp4".toList),
    (".aac".toList, "audio/aac".toList),
    (".txt".toList, "text/plain".toList),
    (".json".toList, "application/json".toList)]

/-- `R2Uploader._get_content_type` (`src/r2_uploader.py` lines 258-284):
`ext = Path(file_path).suffix.lower()`, then a table lookup with default
`application/octet-stream`. -/
def _get_content_type (file_path : Str) : Str :=
  let ext := (suffixOf file_path).map lowerCh
  match content_types.find? (fun p => p.1 == ext) with
  | some p => p.2
  | none => "application/octet-stream".toList

/-- Claim C6: content-type lookup is deterministic and case-insensitive
on the extension (it depends only on the lowercased suffix), realizes
exactly the ten-entry table, and yields `application/octet-stream` for
every extension outside the table. -/
theorem C6_content_type :
    (∀ s t : Str, (suffixOf s).map lowerCh = (suffixOf t).map lowerCh →
      _get_content_type s = _get_content_type t) ∧
    _get_content_type ("v.mp4".toList) = "video/mp4".toList ∧
    _get_content_type ("v.MKV".toList) = "video/x-matroska".toList ∧
    _get_content_type ("v.flv".toList) = "video/x-flv".toList ∧
    _get_content_type ("v.TS".toList) = "video/mp2t".toList ∧
    _get_content_type ("v.m3u8".toList) = "application/vnd.apple.mpegurl".toList ∧
    _get_content_type ("v.Mp3".toList) = "audio/mpeg".toList ∧
    _get_content_type ("v.m4a".toList) = "audio/mp4".toList ∧
    _get_content_type ("v.AAC".toList) = "audio/aac".toList ∧
    _get_content_type ("v.txt".toList) = "text/plain".toList ∧
    _get_content_type ("v.JSON".toList) = "application/json".toList ∧
    (∀ s : Str, (suffixOf s).map lowerCh ∉ content_types.map Prod.fst →
      _get_content_type s = "application/octet-stream".toList) := by
  refine ⟨?_, by decide, by decide, by decide, by decide, by decide, by decide, by decide,
    by decide, by decide, by decide, ?_⟩
  · intro s t h
    simp only [_get_content_type]
    rw [h]
  · intro s hs
    have hfind : content_types.find? (fun p => p.1 == (suffixOf s).map lowerCh) = none := by
      rw [List.find?_eq_none]
      intro x hx hbe
      have he : x.1 = (suffixOf s).map lowerCh := by simpa using hbe
      exact hs (he ▸ List.mem_map_of_mem Prod.fst hx)
    simp only [_get_content_type, hfind]

/-- Claim C6, witness: the unmapped extension `.xyz` falls through to
`application/octet-stream`. -/
theorem C6_content_type_witness :
    ((suffixOf ("a.xyz".toList)).map lowerCh ∉ content_types.map Prod.fst) ∧
    _get_content_type ("a.xyz".toList) = "application/octet-stream".toList := by
  obtain ⟨hcong, h1, h2, h3, h4, h5, h6, h7, h8, h9, h10, hlast⟩ := C6_content_type
  exact ⟨by decide, hlast ("a.xyz".toList) (by decide)⟩

/-- The default extension set of `upload_directory`
(`r2_upload_example.py` line 99). -/
def default_video_extensions : List Str :=
  [".mp4".toList, ".mkv".toList, ".flv".toList, ".ts".toList, ".m3u8".toList,
    ".avi".toList, ".mov".toList, ".wmv".toList]

/-- Python ASCII whitespace, as stripped by `str.strip()`. -/
def isWs (c : Char) : Bool :=
  c == ' ' || c == Char.ofNat 9 || c == Char.ofNat 10 || c == Char.ofNat 13 ||
  c == Char.ofNat 11 || c == Char.ofNat 12

/-- Python `s.strip()`: drop leading and trailing whitespace. -/
def trimWs (s : Str) : Str := ((s.dropWhile isWs).reverse.dropWhile isWs).reverse

/-- The extension set used by `upload_directory`
(`r2_upload_example.py` lines 99-104): the default set, wholly replaced
by `[f".{fmt.strip().lower()}" for fmt in format_filter.split(',')]`
when a truthy (non-empty) `format_filter` is given. -/
def computeExtensions (video_extensions : List Str) (format_filter : Option Str) : List Str :=
  match format_filter with
  | some f =>
    if f = [] then video_extensions
    else (splitOnChar comma f).map (fun e => dot :: (trimWs e).map lowerCh)
  | none => video_extensions

/-- The file filter of `upload_directory` (`r2_upload_example.py`
line 110): `Path(file).suffix.lower() in video_extensions`. -/
def fileMatches (exts : List Str) (file : Str) : Bool :=
  exts.contains ((suffixOf file).map lowerCh)

/-- Python `os.path.join(a, b)` for POSIX paths. -/
def pathJoin (a b : Str) : Str :=
  if b.head? == some fslash then b
  else if a == ([] : Str) || a.getLast? == some fslash then a ++ b
  else a ++ fslash :: b

/-- `pathlib.Path(s).parts` for POSIX paths: the path components, with a
leading `/` component for an absolute path and pathlib's normalization
dropping empty and `.` components. -/
def partsOf (s : Str) : List Str :=
  let segs := (splitOnChar fslash s).filter
    (fun seg => !(seg == ([] : Str)) && !(seg == [dot]))
  if s.head? == some fslash then [fslash] :: segs else segs

/-- Platform and anchor inference of `upload_directory`
(`r2_upload_example.py` lines 122-131): with at least three path
components and a `downloads` component followed by at least two more,
they are the two components after `downloads`; otherwise both are
`unknown`. -/
def inferLabels (file_path : Str) : Str × Str :=
  let parts := partsOf file_path
  let unknown := "unknown".toList
  if 3 ≤ parts.length then
    match parts.findIdx? (fun t => t == marker) with
    | some idx =>
      if idx + 2 < parts.length then (parts.getD (idx + 1) [], parts.getD (idx + 2) [])
      else (unknown, unknown)
    | none => (unknown, unknown)
  else (unknown, unknown)

/-- `upload_directory` (`r2_upload_example.py` lines 92-139).  `walk` is
the flattened `(root, file)` sequence yielded by `os.walk(dir_path)`;
`uploadOk` is the Boolean result of `upload_single_file` on a given
joined path, platform, anchor and delete flag (an oracle for the
network); the result is the final `(success_count, fail_count)`.  The
built-in default extension set is the `video_extensions_default`
argument so that theorems can state its irrelevance under a custom
filter; the source initializes it to `default_video_extensions`. -/
def upload_directory (walk : List (Str × Str)) (delete_after : Bool)
    (format_filter : Option Str) (video_extensions_default : List Str)
    (uploadOk : Str → Str → Str → Bool → Bool) : Nat × Nat :=
  let video_extensions := computeExtensions video_extensions_default format_filter
  let video_files :=
    (walk.filter (fun rf => fileMatches video_extensions rf.2)).map
      (fun rf => pathJoin rf.1 rf.2)
  video_files.foldl
    (fun acc file_path =>
      let pa := inferLabels file_path
      if uploadOk file_path pa.1 pa.2 delete_after then (acc.1 + 1, acc.2)
      else (acc.1, acc.2 + 1))
    (0, 0)

/-- Counting fold: starting from any accumulator, each element adds one
to exactly one of the two tallies. -/
theorem foldl_tally (g : Str → Bool) :
    ∀ (l : List Str) (p : Nat × Nat),
      (l.foldl (fun acc fp => if g fp then (acc.1 + 1, acc.2) else (acc.1, acc.2 + 1)) p).1 +
        (l.foldl (fun acc fp => if g fp then (acc.1 + 1, acc.2) else (acc.1, acc.2 + 1)) p).2 =
        p.1 + p.2 + l.length := by
  intro l
  induction l with
  | nil => intro p; simp
  | cons x xs ih =>
    intro p
    cases hg : g x <;> simp [hg, ih] <;> omega

/-- `upload_directory` is the counting fold over the matched, joined
file paths. -/
theorem upload_directory_as_foldl (walk : List (Str × Str)) (d : Bool) (ff : Option Str)
    (defaults : List Str) (ok : Str → Str → Str → Bool → Bool) :
    upload_directory walk d ff defaults ok =
      ((walk.filter (fun rf => fileMatches (computeExtensions defaults ff) rf.2)).map
        (fun rf => pathJoin rf.1 rf.2)).foldl
        (fun acc fp =>
          if (fun fp => ok fp (inferLabels fp).1 (inferLabels fp).2 d) fp then (acc.1 + 1, acc.2)
          else (acc.1, acc.2 + 1)) (0, 0) := rfl

/-- Claim C4: every file matched by the extension filter is attempted by
the sequential fold — failures only increment the failure tally and
never stop the walk — and at the end
`success_count + fail_count` equals the number of matched files. -/
theorem C4_directory_tally (walk : List (Str × Str)) (d : Bool) (ff : Option Str)
    (defaults : List Str) (ok : Str → Str → Str → Bool → Bool) :
    (upload_directory walk d ff defaults ok).1 + (upload_directory walk d ff defaults ok).2 =
      (walk.filter (fun rf => fileMatches (computeExtensions defaults ff) rf.2)).length := by
  rw [upload_directory_as_foldl]
  have h := foldl_tally (fun fp => ok fp (inferLabels fp).1 (inferLabels fp).2 d)
    ((walk.filter (fun rf => fileMatches (computeExtensions defaults ff) rf.2)).map
      (fun rf => pathJoin rf.1 rf.2)) (0, 0)
  simp only [List.length_map] at h
  simpa using h

/-- Claim C7: a non-empty comma-separated `format_filter` makes file
selection match the lowercased suffix against exactly the filter's
extension set — each entry stripped, lowercased and given a leading
dot — and the built-in default set is ignored entirely (the computed set
does not depend on it). -/
theorem C7_filter_replaces (d1 d2 : List Str) (f : Str) (h : f ≠ []) :
    computeExtensions d1 (some f) =
      (splitOnChar comma f).map (fun e => dot :: (trimWs e).map lowerCh) ∧
    computeExtensions d1 (some f) = computeExtensions d2 (some f) ∧
    (∀ file : Str, fileMatches (computeExtensions d1 (some f)) file =
      ((splitOnChar comma f).map (fun e => dot :: (trimWs e).map lowerCh)).contains
        ((suffixOf file).map lowerCh)) := by
  have e1 : computeExtensions d1 (some f) =
      (splitOnChar comma f).map (fun e => dot :: (trimWs e).map lowerCh) := by
    show (if f = [] then d1 else (splitOnChar comma f).map (fun e => dot :: (trimWs e).map lowerCh)) = _
    rw [if_neg h]
  have e2 : computeExtensions d2 (some f) =
      (splitOnChar comma f).map (fun e => dot :: (trimWs e).map lowerCh) := by
    show (if f = [] then d2 else (splitOnChar comma f).map (fun e => dot :: (trimWs e).map lowerCh)) = _
    rw [if_neg h]
  refine ⟨e1, e1.trans e2.symm, fun file => ?_⟩
  rw [fileMatches, e1]

/-- Claim C7, witness: the filter `mp4, MKV` selects exactly the set
`{.mp4, .mkv}` regardless of the default extension set. -/
theorem C7_filter_replaces_witness :
    ("mp4, MKV".toList ≠ ([] : Str)) ∧
    computeExtensions default_video_extensions (some ("mp4, MKV".toList)) =
      [".mp4".toList, ".mkv".toList] ∧
    computeExtensions default_video_extensions (some ("mp4, MKV".toList)) =
      computeExtensions [] (some ("mp4, MKV".toList)) := by
  have h := C7_filter_replaces default_video_extensions [] ("mp4, MKV".toList) (by decide)
  exact ⟨by decide, h.1.trans (by decide), h.2.1⟩

end R2
